import Mathlib

/-!
Verification development for the `urlshortener` service (Go).

The development shallowly embeds the core of the repository:
the `models` package (URL and Click records), the `store` package
(`PostgresRepository`, `CacheRepository`, `URLService`), and the parts of
Go's `net/url.ParseRequestURI` that the service uses for input validation.

Conventions used throughout:
* wall-clock times are natural numbers (seconds); the Go zero `time.Time`
  is represented by `0`, matching `ExpiresAt.IsZero()`;
* `time.Duration` arguments are natural numbers of seconds (`0` = no TTL);
* fallible Go functions returning `(T, error)` become `Except Err T`;
* database and cache state is passed explicitly; `NOW()` / `time.Now()`
  become an explicit `now` parameter;
* bytes are `Nat` reduced `% 256` where their width matters.
-/

namespace UrlShortener

/-! ## Character helpers (ASCII classes used by Go `net/url`) -/

def isAlphaCh (c : Char) : Bool :=
  (('a' ≤ c) && (c ≤ 'z')) || (('A' ≤ c) && (c ≤ 'Z'))

def isDigitCh (c : Char) : Bool :=
  ('0' ≤ c) && (c ≤ '9')

def isHexCh (c : Char) : Bool :=
  isDigitCh c || (('a' ≤ c) && (c ≤ 'f')) || (('A' ≤ c) && (c ≤ 'F'))

/-- Value of the first hex digit of a `%XX` escape (Go `unhex`). -/
def hexVal (c : Char) : Nat :=
  if isDigitCh c then c.toNat - 48
  else if ('a' ≤ c) && (c ≤ 'f') then c.toNat - 87
  else c.toNat - 55

/-! ## Go `encoding/base64` URL alphabet

`base64.URLEncoding.EncodeToString` over the URL-safe alphabet with `=`
padding.  Sextet values are always below 64, so the `% 64` in the lookup
is a no-op recording the 6-bit width. -/

def b64alphabet : List Char :=
  "ABCDEFGHIJKLMNOPQRSTUVWXYZabcdefghijklmnopqrstuvwxyz0123456789-_".toList

def b64char (n : Nat) : Char :=
  b64alphabet.getD (n % 64) 'A'

def b64urlEncode : List Nat → List Char
  | b0 :: b1 :: b2 :: rest =>
      b64char ((b0 % 256) / 4) ::
      b64char (((b0 % 256) % 4) * 16 + (b1 % 256) / 16) ::
      b64char (((b1 % 256) % 16) * 4 + (b2 % 256) / 64) ::
      b64char ((b2 % 256) % 64) :: b64urlEncode rest
  | [b0, b1] =>
      [b64char ((b0 % 256) / 4), b64char (((b0 % 256) % 4) * 16 + (b1 % 256) / 16),
       b64char (((b1 % 256) % 16) * 4), '=']
  | [b0] =>
      [b64char ((b0 % 256) / 4), b64char (((b0 % 256) % 4) * 16), '=', '=']
  | [] => []

/-! ## Go `net/url.ParseRequestURI` accept/reject model

`URLService` only uses `ParseRequestURI` for its error result, so the model
is the acceptance predicate of `parse(rawURL, viaRequest=true)`:
control bytes, emptiness, `"*"`, `getScheme`, the query split, the
opaque / rooted-path / authority branches, `parseAuthority` (split at the
last `@`, `parseHost` with optional port and host-escape rules,
`validUserinfo`) and `setPath` escape validation. -/

inductive SchemeRes where
  | err : SchemeRes
  | noScheme : SchemeRes
  | found (scheme rest : List Char) : SchemeRes
deriving Repr, DecidableEq

/-- Go `getScheme`: `acc` is the scheme prefix read so far (empty iff at
index 0).  Digits and `+ - .` may not start a scheme; an invalid character
means the whole input has no scheme; `:` at index 0 is an error. -/
def getSchemeAux : List Char → List Char → SchemeRes
  | [], _ => .noScheme
  | c :: rest, acc =>
    if isAlphaCh c then getSchemeAux rest (acc ++ [c])
    else if isDigitCh c || c == '+' || c == '-' || c == '.' then
      if acc.isEmpty then .noScheme else getSchemeAux rest (acc ++ [c])
    else if c == ':' then
      if acc.isEmpty then .err else .found acc rest
    else .noScheme

/-- Go `validOptionalPort`: empty, or `:` followed by digits only. -/
def validOptionalPort : List Char → Bool
  | [] => true
  | ':' :: rest => rest.all isDigitCh
  | _ => false

/-- Characters Go `unescape(_, encodeHost)` accepts unescaped: non-ASCII,
alphanumerics, the host sub-delims, and the unreserved marks. -/
def hostCharOk (c : Char) : Bool :=
  (c.toNat ≥ 0x80) || isAlphaCh c || isDigitCh c ||
  (['!', '$', '&', Char.ofNat 39, '(', ')', '*', '+', ',', ';', '=', ':',
    '[', ']', '<', '>', '"', '-', '_', '.', '~'].contains c)

/-- Go `unescape(_, encodeHost)`: every `%` starts a valid hex escape which
must encode a non-ASCII byte or be exactly `%25`; other characters must be
allowed host characters. -/
def hostCharsOk : List Char → Bool
  | [] => true
  | '%' :: a :: b :: rest =>
      isHexCh a && isHexCh b && (hexVal a ≥ 8 || (a == '2' && b == '5')) && hostCharsOk rest
  | '%' :: _ => false
  | c :: rest => hostCharOk c && hostCharsOk rest

/-- Go `validUserinfo` character classes (non-ASCII runes are rejected). -/
def isUserinfoCh (c : Char) : Bool :=
  isAlphaCh c || isDigitCh c ||
  (['-', '.', '_', ':', '~', '!', '$', '&', Char.ofNat 39, '(', ')', '*',
    '+', ',', ';', '=', '%', '@'].contains c)

/-- Go `unescape` escape validity for path/userinfo modes: every `%` must
be followed by two hex digits. -/
def validEscapes : List Char → Bool
  | [] => true
  | '%' :: a :: b :: rest => isHexCh a && isHexCh b && validEscapes rest
  | '%' :: _ => false
  | _ :: rest => validEscapes rest

/-- Characters after the last occurrence of `sep` (whole list if absent). -/
def afterLast (sep : Char) (l : List Char) : List Char :=
  (l.reverse.takeWhile (fun c => c != sep)).reverse

/-- Characters before the last occurrence of `sep`. -/
def beforeLast (sep : Char) (l : List Char) : List Char :=
  ((l.reverse.dropWhile (fun c => c != sep)).reverse).dropLast

/-- Go `parseHost`: bracketed IPv6 needs a closing `]` and a valid optional
port after it; otherwise the suffix from the last `:` must be a valid
optional port; the whole host must pass the host-escape scan. -/
def parseHostOk (host : List Char) : Bool :=
  (match host with
   | '[' :: _ => host.contains ']' && validOptionalPort (afterLast ']' host)
   | _ => !host.contains ':' || validOptionalPort (':' :: afterLast ':' host))
  && hostCharsOk host

/-- Go `parseAuthority`: userinfo is everything before the last `@`. -/
def parseAuthorityOk (authority : List Char) : Bool :=
  if authority.contains '@' then
    parseHostOk (afterLast '@' authority) &&
    (beforeLast '@' authority).all isUserinfoCh &&
    validEscapes (beforeLast '@' authority)
  else parseHostOk authority

/-- Acceptance predicate of Go `url.ParseRequestURI` (`viaRequest = true`).
Rejected: control bytes, the empty string, a lone `:` scheme error, and
scheme-less inputs that are not rooted paths.  Accepted without further
checks: `"*"` and opaque `scheme:rest` forms.  Rooted paths validate their
escapes; `scheme://authority/path` additionally validates the authority. -/
def parseRequestURIOk (s : String) : Bool :=
  let cs := s.data
  if cs.any (fun c => c.toNat < 32 || c.toNat == 127) then false
  else if cs.isEmpty then false
  else if cs == ['*'] then true
  else
    match getSchemeAux cs [] with
    | .err => false
    | .noScheme =>
        match cs.takeWhile (fun c => c != '?') with
        | '/' :: tail => validEscapes ('/' :: tail)
        | _ => false
    | .found _ rest0 =>
        match rest0.takeWhile (fun c => c != '?') with
        | '/' :: '/' :: after =>
            parseAuthorityOk (after.takeWhile (fun c => c != '/')) &&
            validEscapes (after.dropWhile (fun c => c != '/'))
        | '/' :: tail => validEscapes ('/' :: tail)
        | _ => true

/-! ## Data model (`models` package) -/

/-- Error kinds (`store.ErrURLNotFound`, `store.ErrURLExists`,
`store.ErrInvalidURL`, `store.ErrRecentClick`, the ad-hoc
`errors.New("unauthorized: ...")` of the creator-scoped operations, the
PostgreSQL duplicate-key error raised by the `UNIQUE` column constraint,
and an opaque cache/store failure). -/
inductive Err where
  | notFound
  | urlExists
  | invalidURL
  | recentClick
  | unauthorized
  | uniqueViolation
  | cacheFailure
deriving Repr, DecidableEq

/-- Model of `models.URL`.  `expiresAt = 0` models the zero `time.Time`
("never expires"); `deletedAt = none` models a NULL `deleted_at`. -/
structure URL where
  id : Nat
  original : String
  short : String
  title : String
  createdAt : Nat
  expiresAt : Nat
  clicks : Nat
  creatorReference : String
  deletedAt : Option Nat
deriving Repr, DecidableEq

/-- Model of `models.NewURL`: id is left for the store, clicks start at 0,
`createdAt` is the current time. -/
def NewURL (original short title : String) (expiresAt : Nat) (creatorReference : String)
    (now : Nat) : URL :=
  { id := 0, original := original, short := short, title := title, createdAt := now,
    expiresAt := expiresAt, clicks := 0, creatorReference := creatorReference,
    deletedAt := none }

/-- Expiry test `!url.ExpiresAt.IsZero() && url.ExpiresAt.Before(time.Now())`. -/
def URL.isExpiredAt (u : URL) (now : Nat) : Bool :=
  u.expiresAt != 0 && u.expiresAt < now

/-- Model of `models.Click`. -/
structure Click where
  id : Nat
  urlId : Nat
  urlShort : String
  ip : String
  location : String
  browser : String
  device : String
  timestamp : Nat
deriving Repr, DecidableEq

/-- Model of `models.NewClick`: id is left for the store, timestamp is now. -/
def NewClick (urlId : Nat) (urlShort ip location browser device : String) (now : Nat) : Click :=
  { id := 0, urlId := urlId, urlShort := urlShort, ip := ip, location := location,
    browser := browser, device := device, timestamp := now }

/-- A row of the `url_history` table (old/new JSON snapshots elided:
no operation ever reads them back). -/
structure HistoryEntry where
  urlId : Nat
  urlShort : String
  action : String
  modifiedBy : String
deriving Repr, DecidableEq

/-- The durable store: the three tables of `InitSchema` plus the
`SERIAL` id counters. -/
structure RepoState where
  urls : List URL
  clicks : List Click
  history : List HistoryEntry
  nextId : Nat
  nextClickId : Nat
deriving Repr, DecidableEq

/-- Aggregated analytics: the four keys of the `map[string]interface{}`
literal returned by `GetClickAnalytics` become the four fields. -/
structure Analytics where
  totalClicks : Nat
  browsers : List (String × Nat)
  devices : List (String × Nat)
  locations : List (String × Nat)
deriving Repr, DecidableEq

/-- One `SELECT col, COUNT(*) ... GROUP BY col` aggregation. -/
def groupCounts (f : Click → String) (l : List Click) : List (String × Nat) :=
  (l.map f).dedup.map (fun k => (k, (l.filter (fun c => f c == k)).length))

/-! ## `PostgresRepository` -/

namespace PostgresRepository

/-- Query `SELECT ... FROM urls WHERE short = $1 AND deleted_at IS NULL` followed
by the expiry check. -/
def GetByShort (now : Nat) (short : String) (r : RepoState) : Except Err URL :=
  match r.urls.find? (fun u => u.short == short && u.deletedAt == none) with
  | none => .error .notFound
  | some u => if u.isExpiredAt now then .error .notFound else .ok u

/-- Query `SELECT ... FROM urls WHERE original = $1 AND deleted_at IS NULL`
followed by the expiry check. -/
def GetByOriginal (now : Nat) (original : String) (r : RepoState) : Except Err URL :=
  match r.urls.find? (fun u => u.original == original && u.deletedAt == none) with
  | none => .error .notFound
  | some u => if u.isExpiredAt now then .error .notFound else .ok u

/-- Go `Create`: the application-level existence check is scoped to
`deleted_at IS NULL`; the INSERT is additionally subject to the schema's
`short TEXT NOT NULL UNIQUE` constraint, which covers soft-deleted rows
too and surfaces as a duplicate-key store error.  The stored row receives
the `SERIAL`-assigned id. -/
def Create (u : URL) (r : RepoState) : Except Err (URL × RepoState) :=
  if r.urls.any (fun v => v.short == u.short && v.deletedAt == none) then
    .error .urlExists
  else if r.urls.any (fun v => v.short == u.short) then
    .error .uniqueViolation
  else
    let stored := { u with id := r.nextId }
    .ok (stored, { r with urls := r.urls ++ [stored], nextId := r.nextId + 1 })

/-- Query `UPDATE urls SET clicks = clicks + 1 WHERE short = $1 AND deleted_at IS NULL`. -/
def IncrementClicks (short : String) (r : RepoState) : RepoState :=
  { r with urls := r.urls.map (fun u =>
      if u.short == short && u.deletedAt == none then { u with clicks := u.clicks + 1 } else u) }

/-- Query `UPDATE urls SET deleted_at = NOW() WHERE short = $1 AND deleted_at IS NULL`. -/
def Delete (now : Nat) (short : String) (r : RepoState) : RepoState :=
  { r with urls := r.urls.map (fun u =>
      if u.short == short && u.deletedAt == none then { u with deletedAt := some now } else u) }

/-- Go `DeleteWithCreator`: fetch by short, reject on creator mismatch, then
soft-delete additionally scoped by `creator_reference`. -/
def DeleteWithCreator (now : Nat) (short creatorReference : String) (r : RepoState) :
    Except Err RepoState :=
  match GetByShort now short r with
  | .error e => .error e
  | .ok u =>
    if u.creatorReference != creatorReference then .error .unauthorized
    else .ok { r with urls := r.urls.map (fun v =>
      if v.short == short && v.creatorReference == creatorReference && v.deletedAt == none
      then { v with deletedAt := some now } else v) }

/-- Query `INSERT INTO clicks ...` with the `SERIAL`-assigned id. -/
def StoreClick (c : Click) (r : RepoState) : RepoState :=
  { r with clicks := r.clicks ++ [{ c with id := r.nextClickId }],
           nextClickId := r.nextClickId + 1 }

/-- Query `SELECT EXISTS(... WHERE url_short AND ip AND browser AND device AND
timestamp > NOW() - INTERVAL '1 hour')`. -/
def HasRecentClick (now : Nat) (short ip browser device : String) (r : RepoState) : Bool :=
  r.clicks.any (fun c =>
    c.urlShort == short && c.ip == ip && c.browser == browser && c.device == device &&
    now < c.timestamp + 3600)

/-- Go `UpdateURL`: fetch check, then
`UPDATE urls SET original, title, expires_at WHERE short AND deleted_at IS NULL`. -/
def UpdateURL (now : Nat) (short : String) (u : URL) (r : RepoState) : Except Err RepoState :=
  match GetByShort now short r with
  | .error e => .error e
  | .ok _ => .ok { r with urls := r.urls.map (fun v =>
      if v.short == short && v.deletedAt == none
      then { v with original := u.original, title := u.title, expiresAt := u.expiresAt }
      else v) }

/-- Go `UpdateURLWithCreator`: fetch check, creator check, then the UPDATE
additionally scoped by `creator_reference`. -/
def UpdateURLWithCreator (now : Nat) (short : String) (u : URL) (creatorReference : String)
    (r : RepoState) : Except Err RepoState :=
  match GetByShort now short r with
  | .error e => .error e
  | .ok existing =>
    if existing.creatorReference != creatorReference then .error .unauthorized
    else .ok { r with urls := r.urls.map (fun v =>
      if v.short == short && v.creatorReference == creatorReference && v.deletedAt == none
      then { v with original := u.original, title := u.title, expiresAt := u.expiresAt }
      else v) }

/-- Query `INSERT INTO url_history ...` (snapshots elided). -/
def LogURLHistory (urlId : Nat) (short action modifiedBy : String) (r : RepoState) : RepoState :=
  { r with history := r.history ++
      [{ urlId := urlId, urlShort := short, action := action, modifiedBy := modifiedBy }] }

/-- Go `GetClickAnalytics`: a COUNT(*) plus three GROUP BY aggregations over
the clicks of the code (not liveness-filtered). -/
def GetClickAnalytics (short : String) (r : RepoState) : Analytics :=
  let cs := r.clicks.filter (fun c => c.urlShort == short)
  { totalClicks := cs.length,
    browsers := groupCounts (fun c => c.browser) cs,
    devices := groupCounts (fun c => c.device) cs,
    locations := groupCounts (fun c => c.location) cs }

end PostgresRepository

/-! ## `CacheRepository`

Redis values are full JSON copies of the record; the round-trip is the
identity, so entries store the record itself.  The `short:` and
`original:` prefixes become two separate key spaces.  A key set at time
`t₀` with TTL `ttl` is visible while `now < t₀ + ttl`. -/

structure CacheEntry where
  value : URL
  expiry : Nat
deriving Repr, DecidableEq

structure CacheState where
  ttl : Nat
  shortKeys : List (String × CacheEntry)
  originalKeys : List (String × CacheEntry)
deriving Repr, DecidableEq

def putKey (k : String) (e : CacheEntry) (l : List (String × CacheEntry)) :
    List (String × CacheEntry) :=
  (k, e) :: l.filter (fun p => p.1 != k)

def delKey (k : String) (l : List (String × CacheEntry)) : List (String × CacheEntry) :=
  l.filter (fun p => p.1 != k)

def getKey (k : String) (l : List (String × CacheEntry)) : Option CacheEntry :=
  (l.find? (fun p => p.1 == k)).map Prod.snd

namespace CacheRepository

/-- Go `Set`: store the serialized record under `short:<short>` and
`original:<original>`, both with the configured TTL. -/
def Set (now : Nat) (u : URL) (c : CacheState) : CacheState :=
  { c with
    shortKeys := putKey u.short ⟨u, now + c.ttl⟩ c.shortKeys,
    originalKeys := putKey u.original ⟨u, now + c.ttl⟩ c.originalKeys }

/-- Go `GetByShort`: miss (absent or TTL-evicted) is `ErrURLNotFound`; a hit
on a logically expired record deletes both keys and is also
`ErrURLNotFound`. -/
def GetByShort (now : Nat) (short : String) (c : CacheState) : Except Err URL × CacheState :=
  match getKey short c.shortKeys with
  | none => (.error .notFound, c)
  | some e =>
    if e.expiry ≤ now then (.error .notFound, c)
    else if e.value.isExpiredAt now then
      (.error .notFound,
        { c with shortKeys := delKey short c.shortKeys,
                 originalKeys := delKey e.value.original c.originalKeys })
    else (.ok e.value, c)

/-- Go `GetByOriginal`, symmetric to `GetByShort`. -/
def GetByOriginal (now : Nat) (original : String) (c : CacheState) :
    Except Err URL × CacheState :=
  match getKey original c.originalKeys with
  | none => (.error .notFound, c)
  | some e =>
    if e.expiry ≤ now then (.error .notFound, c)
    else if e.value.isExpiredAt now then
      (.error .notFound,
        { c with shortKeys := delKey e.value.short c.shortKeys,
                 originalKeys := delKey original c.originalKeys })
    else (.ok e.value, c)

end CacheRepository

/-! ## `URLService`

The service composes the repository and the cache.  `World` carries both,
the current wall-clock time, and whether the cache backend fails `Set`
calls (`cacheSetFails` models an unreachable Redis; all other cache
operations are total in this embedding). -/

structure World where
  now : Nat
  repo : RepoState
  cache : CacheState
  cacheSetFails : Bool
deriving Repr, DecidableEq

/-- Call `s.cache.Set(ctx, url)` as seen by the service. -/
def worldCacheSet (u : URL) (w : World) : Except Err World :=
  if w.cacheSetFails then .error .cacheFailure
  else .ok { w with cache := CacheRepository.Set w.now u w.cache }

namespace URLService

/-- Read path by short code: try cache (any cache error falls through),
then repository (errors fatal), then repopulate the cache — a failure of
this `Set` is returned as the operation's error. -/
def GetByShort (w : World) (short : String) : Except Err URL × World :=
  let (res, c1) := CacheRepository.GetByShort w.now short w.cache
  let w1 := { w with cache := c1 }
  match res with
  | .ok u => (.ok u, w1)
  | .error _ =>
    match PostgresRepository.GetByShort w1.now short w1.repo with
    | .error e => (.error e, w1)
    | .ok u =>
      match worldCacheSet u w1 with
      | .error e => (.error e, w1)
      | .ok w2 => (.ok u, w2)

/-- Read path by original URL, structurally identical to `GetByShort`. -/
def GetByOriginal (w : World) (original : String) : Except Err URL × World :=
  let (res, c1) := CacheRepository.GetByOriginal w.now original w.cache
  let w1 := { w with cache := c1 }
  match res with
  | .ok u => (.ok u, w1)
  | .error _ =>
    match PostgresRepository.GetByOriginal w1.now original w1.repo with
    | .error e => (.error e, w1)
    | .ok u =>
      match worldCacheSet u w1 with
      | .error e => (.error e, w1)
      | .ok w2 => (.ok u, w2)

/-- One candidate short code: base64-url-encode the random bytes, drop all
padding characters, keep the first `len` characters. -/
def candidate (bytes : List Nat) (len : Nat) : String :=
  ⟨((b64urlEncode bytes).filter (fun c => c != '=')).take len⟩

/-- The retry loop of `generateShortURL`: at each remaining attempt draw
bytes from the random source, form the candidate and probe the full read
path; only a clean `ErrURLNotFound` accepts the candidate, anything else
(taken, or a non-not-found read error) consumes the attempt.  Exhaustion
is `ErrURLExists`. -/
def genLoop (rand : Nat → List Nat) (len : Nat) (w : World) (i : Nat) :
    Nat → Except Err String × World
  | 0 => (.error .urlExists, w)
  | fuel + 1 =>
    let short := candidate (rand i) len
    let (res, w1) := GetByShort w short
    match res with
    | .error .notFound => (.ok short, w1)
    | _ => genLoop rand len w1 (i + 1) fuel

/-- Go `generateShortURL(length)` with the random source made explicit
(`rand i` = the bytes `crypto/rand.Read` fills on attempt `i`; the Go
read never fails). -/
def generateShortURL (rand : Nat → List Nat) (len : Nat) (w : World) :
    Except Err String × World :=
  genLoop rand len w 0 5

/-- Go `CreateShortURL`: validate the original, resolve the short code
(custom code availability via the read path, otherwise generation),
compute `expiresAt`, persist, then mirror into the cache — the one path
where a cache `Set` failure is returned. -/
def CreateShortURL (w : World) (originalURL customShort title : String)
    (expireAfter : Nat) (creatorReference : String) (rand : Nat → List Nat) :
    Except Err URL × World :=
  if !parseRequestURIOk originalURL then (.error .invalidURL, w)
  else
    let shortRes : Except Err String × World :=
      if customShort == "" then generateShortURL rand 6 w
      else
        let (res, w1) := GetByShort w customShort
        match res with
        | .ok _ => (.error .urlExists, w1)
        | .error .notFound => (.ok customShort, w1)
        | .error e => (.error e, w1)
    match shortRes with
    | (.error e, w1) => (.error e, w1)
    | (.ok short, w1) =>
      let expiresAt := if expireAfter > 0 then w1.now + expireAfter else 0
      let newURL := NewURL originalURL short title expiresAt creatorReference w1.now
      match PostgresRepository.Create newURL w1.repo with
      | .error e => (.error e, w1)
      | .ok (created, repo1) =>
        let w2 := { w1 with repo := repo1 }
        match worldCacheSet created w2 with
        | .error e => (.error e, w2)
        | .ok w3 => (.ok created, w3)

/-- Go `RecordClick`: the dedup probe first (`ErrRecentClick` stores
nothing), then the read path for the owning record's id, then exactly one
`StoreClick` append; the click counter is never touched here. -/
def RecordClick (w : World) (short ip location browser device : String) :
    Except Err Unit × World :=
  if PostgresRepository.HasRecentClick w.now short ip browser device w.repo then
    (.error .recentClick, w)
  else
    match GetByShort w short with
    | (.error e, w1) => (.error e, w1)
    | (.ok u, w1) =>
      let click := NewClick u.id short ip location browser device w1.now
      (.ok (), { w1 with repo := PostgresRepository.StoreClick click w1.repo })

/-- Go `UpdateURL`: fetch the existing record, re-validate a changed
original, rebuild the record preserving identity / `createdAt` / `clicks`
/ `creatorReference` and carrying `expiresAt` over when `ttl = 0`,
best-effort history, repository update (fatal), best-effort cache `Set`. -/
def UpdateURL (w : World) (short title originalURL : String) (expireAfter : Nat) :
    Except Err URL × World :=
  match GetByShort w short with
  | (.error e, w1) => (.error e, w1)
  | (.ok existing, w1) =>
    if originalURL != existing.original && !parseRequestURIOk originalURL then
      (.error .invalidURL, w1)
    else
      let updated : URL :=
        { id := existing.id, original := originalURL, short := short, title := title,
          createdAt := existing.createdAt,
          expiresAt := if expireAfter > 0 then w1.now + expireAfter else existing.expiresAt,
          clicks := existing.clicks, creatorReference := existing.creatorReference,
          deletedAt := none }
      let repo1 := PostgresRepository.LogURLHistory existing.id short "update" "" w1.repo
      match PostgresRepository.UpdateURL w1.now short updated repo1 with
      | .error e => (.error e, { w1 with repo := repo1 })
      | .ok repo2 =>
        let w2 := { w1 with repo := repo2 }
        match worldCacheSet updated w2 with
        | .error _ => (.ok updated, w2)
        | .ok w3 => (.ok updated, w3)

/-- Go `UpdateURLWithCreator`: as `UpdateURL`, with the creator-scoped
repository update. -/
def UpdateURLWithCreator (w : World) (short title originalURL : String)
    (expireAfter : Nat) (creatorReference : String) : Except Err URL × World :=
  match GetByShort w short with
  | (.error e, w1) => (.error e, w1)
  | (.ok existing, w1) =>
    if originalURL != existing.original && !parseRequestURIOk originalURL then
      (.error .invalidURL, w1)
    else
      let updated : URL :=
        { id := existing.id, original := originalURL, short := short, title := title,
          createdAt := existing.createdAt,
          expiresAt := if expireAfter > 0 then w1.now + expireAfter else existing.expiresAt,
          clicks := existing.clicks, creatorReference := existing.creatorReference,
          deletedAt := none }
      let repo1 :=
        PostgresRepository.LogURLHistory existing.id short "update" creatorReference w1.repo
      match PostgresRepository.UpdateURLWithCreator w1.now short updated creatorReference repo1 with
      | .error e => (.error e, { w1 with repo := repo1 })
      | .ok repo2 =>
        let w2 := { w1 with repo := repo2 }
        match worldCacheSet updated w2 with
        | .error _ => (.ok updated, w2)
        | .ok w3 => (.ok updated, w3)

end URLService

/-! ## Helper lemmas -/

/-- The read path never touches the repository, the clock, or the cache
failure flag: only the cache component of the world can change. -/
theorem getByShort_frame (w : World) (s : String) :
    (URLService.GetByShort w s).2.repo = w.repo ∧
    (URLService.GetByShort w s).2.now = w.now ∧
    (URLService.GetByShort w s).2.cacheSetFails = w.cacheSetFails := by
  cases hc : CacheRepository.GetByShort w.now s w.cache with
  | mk res c1 =>
    cases res with
    | ok u => simp [URLService.GetByShort, hc]
    | error e =>
      cases hr : PostgresRepository.GetByShort w.now s w.repo with
      | error e2 => simp [URLService.GetByShort, hc, hr]
      | ok u =>
        by_cases hf : w.cacheSetFails <;>
          simp [URLService.GetByShort, worldCacheSet, hc, hr, hf]

/-- If the repository holds the short code, the read path never reports a
clean not-found (it yields the record or a cache-repopulation failure). -/
theorem getByShort_not_notFound (w : World) (s : String) (u : URL)
    (hdb : PostgresRepository.GetByShort w.now s w.repo = .ok u) :
    (URLService.GetByShort w s).1 ≠ .error .notFound := by
  cases hc : CacheRepository.GetByShort w.now s w.cache with
  | mk res c1 =>
    cases res with
    | ok v => simp [URLService.GetByShort, hc]
    | error e =>
      by_cases hf : w.cacheSetFails <;>
        simp [URLService.GetByShort, worldCacheSet, hc, hdb, hf]

/-- Unfolding of the repository dedup probe into the spec's predicate. -/
theorem hasRecentClick_iff (now : Nat) (short ip browser device : String) (r : RepoState) :
    PostgresRepository.HasRecentClick now short ip browser device r = true ↔
    ∃ c ∈ r.clicks, c.urlShort = short ∧ c.ip = ip ∧ c.browser = browser ∧
      c.device = device ∧ now < c.timestamp + 3600 := by
  simp [PostgresRepository.HasRecentClick, List.any_eq_true, and_assoc]

/-! ## Concrete fixtures used by witnesses and counterexamples -/

def exURL : URL :=
  { id := 1, original := "https://example.com", short := "abc", title := "Example",
    createdAt := 10, expiresAt := 0, clicks := 2, creatorReference := "A", deletedAt := none }

def exRepo : RepoState :=
  { urls := [exURL], clicks := [], history := [], nextId := 2, nextClickId := 1 }

def exRepoEmpty : RepoState :=
  { urls := [], clicks := [], history := [], nextId := 1, nextClickId := 1 }

def exCacheEmpty : CacheState := { ttl := 100, shortKeys := [], originalKeys := [] }

def exWorld : World :=
  { now := 100, repo := exRepo, cache := exCacheEmpty, cacheSetFails := false }

def exWorldCacheDown : World := { exWorld with cacheSetFails := true }

def exRandZero : Nat → List Nat := fun _ => [0, 0, 0, 0, 0, 0]

/-! ## C1 — cache repopulation failures on the read path -/

/-- C1 (amended): when the read path misses the cache and the repository
returns a record, the record is returned only if the cache repopulation
succeeds; if `Cache.Set` fails during repopulation, that failure is
returned as the operation's error (for both `GetByShort` and
`GetByOriginal`). -/
theorem c1_read_repopulation_failure_returned (w : World) (short original : String) (u v : URL)
    (hmS : (CacheRepository.GetByShort w.now short w.cache).1 = .error .notFound)
    (hdS : PostgresRepository.GetByShort w.now short w.repo = .ok u)
    (hmO : (CacheRepository.GetByOriginal w.now original w.cache).1 = .error .notFound)
    (hdO : PostgresRepository.GetByOriginal w.now original w.repo = .ok v) :
    (URLService.GetByShort w short).1 =
      (if w.cacheSetFails then .error .cacheFailure else .ok u) ∧
    (URLService.GetByOriginal w original).1 =
      (if w.cacheSetFails then .error .cacheFailure else .ok v) := by
  constructor
  · cases hc : CacheRepository.GetByShort w.now short w.cache with
    | mk res c1 =>
      rw [hc] at hmS
      simp only at hmS
      subst hmS
      by_cases hf : w.cacheSetFails <;>
        simp [URLService.GetByShort, worldCacheSet, hc, hdS, hf]
  · cases hc : CacheRepository.GetByOriginal w.now original w.cache with
    | mk res c1 =>
      rw [hc] at hmO
      simp only at hmO
      subst hmO
      by_cases hf : w.cacheSetFails <;>
        simp [URLService.GetByOriginal, worldCacheSet, hc, hdO, hf]

/-- C1 counterexample: with an empty cache whose backend rejects `Set`, a
repository hit is not returned — the service surfaces the cache failure,
refuting "a cache Set failure during read repopulation is never returned". -/
theorem c1_counterexample :
    PostgresRepository.GetByShort exWorldCacheDown.now "abc" exWorldCacheDown.repo = .ok exURL ∧
    (URLService.GetByShort exWorldCacheDown "abc").1 = .error .cacheFailure := by
  exact ⟨rfl, rfl⟩

/-- C1 witness: the amended theorem applied to the concrete cache-down
world. -/
theorem c1_witness :
    (URLService.GetByShort exWorldCacheDown "abc").1 = .error .cacheFailure ∧
    (URLService.GetByOriginal exWorldCacheDown "https://example.com").1 =
      .error .cacheFailure := by
  have h := c1_read_repopulation_failure_returned exWorldCacheDown "abc" "https://example.com"
    exURL exURL rfl rfl rfl rfl
  simpa using h

/-! ## C2 — uniqueness on creation -/

/-- C2 (amended): `Repository.Create` fails with `AlreadyExists` when a
live record with the same short exists; when no record at all (live or
soft-deleted) holds the short it persists the record with the
store-assigned identity; but when only a soft-deleted record holds the
short, the schema's global `UNIQUE` constraint on `short` rejects the
insert with a duplicate-key store error instead of succeeding. -/
theorem c2_create_uniqueness (u : URL) (r : RepoState) :
    ((∃ v ∈ r.urls, v.short = u.short ∧ v.deletedAt = none) →
      PostgresRepository.Create u r = .error .urlExists) ∧
    ((∀ v ∈ r.urls, v.short ≠ u.short) →
      PostgresRepository.Create u r =
        .ok ({ u with id := r.nextId },
             { r with urls := r.urls ++ [{ u with id := r.nextId }],
                      nextId := r.nextId + 1 })) ∧
    ((¬ ∃ v ∈ r.urls, v.short = u.short ∧ v.deletedAt = none) →
      (∃ v ∈ r.urls, v.short = u.short) →
      PostgresRepository.Create u r = .error .uniqueViolation) := by
  refine ⟨?_, ?_, ?_⟩
  · rintro ⟨v, hv, h1, h2⟩
    have hany : r.urls.any (fun v => v.short == u.short && v.deletedAt == none) = true :=
      List.any_eq_true.mpr ⟨v, hv, by simp [h1, h2]⟩
    simp [PostgresRepository.Create, hany]
  · intro h
    have h1 : r.urls.any (fun v => v.short == u.short && v.deletedAt == none) = false := by
      rw [Bool.eq_false_iff]
      intro hc
      obtain ⟨v, hv, hb⟩ := List.any_eq_true.mp hc
      simp only [Bool.and_eq_true, beq_iff_eq] at hb
      exact h v hv hb.1
    have h2 : r.urls.any (fun v => v.short == u.short) = false := by
      rw [Bool.eq_false_iff]
      intro hc
      obtain ⟨v, hv, hb⟩ := List.any_eq_true.mp hc
      exact h v hv (by simpa using hb)
    simp [PostgresRepository.Create, h1, h2]
  · intro hno hex
    have h1 : r.urls.any (fun v => v.short == u.short && v.deletedAt == none) = false := by
      rw [Bool.eq_false_iff]
      intro hc
      obtain ⟨v, hv, hb⟩ := List.any_eq_true.mp hc
      simp only [Bool.and_eq_true, beq_iff_eq] at hb
      exact hno ⟨v, hv, hb.1, hb.2⟩
    obtain ⟨v, hv, hs⟩ := hex
    have h2 : r.urls.any (fun v => v.short == u.short) = true :=
      List.any_eq_true.mpr ⟨v, hv, by simp [hs]⟩
    simp [PostgresRepository.Create, h1, h2]

def exURLDeleted : URL := { exURL with deletedAt := some 50 }

def exRepoDeleted : RepoState :=
  { urls := [exURLDeleted], clicks := [], history := [], nextId := 2, nextClickId := 1 }

/-- C2 counterexample: the store holds only a soft-deleted record with
short `"abc"`, yet creating a fresh record with that short fails with the
duplicate-key error — creation does not succeed although no live record
holds the short. -/
theorem c2_counterexample :
    (∀ v ∈ exRepoDeleted.urls, v.deletedAt ≠ none) ∧
    PostgresRepository.Create (NewURL "https://other.example" "abc" "t" 0 "B" 100)
      exRepoDeleted = .error .uniqueViolation := by
  exact ⟨by decide, rfl⟩

/-- C2 witness: a live record with the same short yields `AlreadyExists`. -/
theorem c2_witness :
    PostgresRepository.Create (NewURL "https://other.example" "abc" "t" 0 "B" 100) exRepo
      = .error .urlExists :=
  (c2_create_uniqueness (NewURL "https://other.example" "abc" "t" 0 "B" 100) exRepo).1
    ⟨exURL, by decide, rfl, rfl⟩

/-! ## C4 — creator-scoped authorization -/

/-- C4: when the stored live record's creator reference is `A` and the
requesting reference `B` differs, both `UpdateURLWithCreator` and
`DeleteWithCreator` fail with the unauthorized error; the error result
carries no updated store state, so the stored record is unchanged. -/
theorem c4_creator_scoped_unauthorized (now : Nat) (code refA refB : String) (u newu : URL)
    (r : RepoState) (hget : PostgresRepository.GetByShort now code r = .ok u)
    (hown : u.creatorReference = refA) (hne : refA ≠ refB) :
    PostgresRepository.UpdateURLWithCreator now code newu refB r = .error .unauthorized ∧
    PostgresRepository.DeleteWithCreator now code refB r = .error .unauthorized := by
  have hne2 : u.creatorReference ≠ refB := hown ▸ hne
  constructor
  · simp [PostgresRepository.UpdateURLWithCreator, hget, hne2]
  · simp [PostgresRepository.DeleteWithCreator, hget, hne2]

/-- C4 witness: the theorem applied to the concrete single-record store. -/
theorem c4_witness :
    PostgresRepository.UpdateURLWithCreator 100 "abc" exURL "B" exRepo
      = .error .unauthorized ∧
    PostgresRepository.DeleteWithCreator 100 "abc" "B" exRepo = .error .unauthorized :=
  c4_creator_scoped_unauthorized 100 "abc" "A" "B" exURL exURL exRepo rfl rfl
    (by decide)

/-! ## C8 — URL validation on creation -/

/-- Spec-side rendering of "a well-formed absolute URL": an absolute URL
(RFC 3986 absolute-URI) must carry a scheme.  Compared against the code's
`parseRequestURIOk`, which also accepts rooted paths and `"*"`. -/
def specIsAbsoluteURL (s : String) : Bool :=
  match getSchemeAux s.data [] with
  | .found scheme _ => !scheme.isEmpty
  | _ => false

/-- C8 (amended): `CreateShortURL` validates the original with Go's
`ParseRequestURI` before any short-code resolution, repository write or
cache write: whenever that validation rejects, the result is `InvalidURL`
and the world is unchanged.  The validation is not "absolute URLs only":
`ParseRequestURI` also accepts rooted paths such as `"/foo"`. -/
theorem c8_invalid_url_rejected_first (w : World)
    (originalURL customShort title creatorReference : String) (ttl : Nat)
    (rand : Nat → List Nat) (hbad : parseRequestURIOk originalURL = false) :
    URLService.CreateShortURL w originalURL customShort title ttl creatorReference rand
      = (.error .invalidURL, w) := by
  simp [URLService.CreateShortURL, hbad]

/-- C8 counterexample: `"/foo"` is not an absolute URL (it has no scheme),
yet `CreateShortURL` accepts it and persists a record instead of failing
with `InvalidURL`. -/
theorem c8_counterexample :
    specIsAbsoluteURL "/foo" = false ∧
    (URLService.CreateShortURL exWorld "/foo" "" "t" 0 "me" exRandZero).1 =
      .ok { id := 2, original := "/foo", short := "AAAAAA", title := "t", createdAt := 100,
            expiresAt := 0, clicks := 0, creatorReference := "me", deletedAt := none } ∧
    (URLService.CreateShortURL exWorld "/foo" "" "t" 0 "me" exRandZero).2.repo.urls.length
      = 2 := by
  exact ⟨rfl, rfl, rfl⟩

/-- C8 witness: the amended theorem applied to a scheme-less input that
the validation rejects. -/
theorem c8_witness :
    URLService.CreateShortURL exWorld "example.com" "" "t" 0 "me" exRandZero
      = (.error .invalidURL, exWorld) :=
  c8_invalid_url_rejected_first exWorld "example.com" "" "t" "me" 0 exRandZero rfl

/-! ## C9 — dual-key cache round trip -/

/-- C9: after `Cache.Set(u)` at time `t₀`, the record is stored as a full
copy under the two independent keys (by short and by original), both with
the same TTL; before that TTL elapses, `GetByShort(u.short)` and
`GetByOriginal(u.original)` each return a record equal to `u` (provided
`u` is not logically expired at lookup time). -/
theorem c9_cache_dual_key_roundtrip (c : CacheState) (u : URL) (t0 t : Nat)
    (httl : t < t0 + c.ttl) (hlive : u.isExpiredAt t = false) :
    getKey u.short (CacheRepository.Set t0 u c).shortKeys = some ⟨u, t0 + c.ttl⟩ ∧
    getKey u.original (CacheRepository.Set t0 u c).originalKeys = some ⟨u, t0 + c.ttl⟩ ∧
    (CacheRepository.GetByShort t u.short (CacheRepository.Set t0 u c)).1 = .ok u ∧
    (CacheRepository.GetByOriginal t u.original (CacheRepository.Set t0 u c)).1 = .ok u := by
  have h1 : getKey u.short (CacheRepository.Set t0 u c).shortKeys = some ⟨u, t0 + c.ttl⟩ := by
    simp [CacheRepository.Set, getKey, putKey]
  have h2 : getKey u.original (CacheRepository.Set t0 u c).originalKeys =
      some ⟨u, t0 + c.ttl⟩ := by
    simp [CacheRepository.Set, getKey, putKey]
  have hnle : ¬ (t0 + c.ttl ≤ t) := Nat.not_le.mpr httl
  refine ⟨h1, h2, ?_, ?_⟩
  · simp [CacheRepository.GetByShort, h1, hnle, hlive]
  · simp [CacheRepository.GetByOriginal, h2, hnle, hlive]

/-- C9 witness: the theorem applied to the concrete record and an empty
cache with TTL 100, set at time 100 and read at time 150. -/
theorem c9_witness :
    (CacheRepository.GetByShort 150 "abc" (CacheRepository.Set 100 exURL exCacheEmpty)).1
      = .ok exURL ∧
    (CacheRepository.GetByOriginal 150 "https://example.com"
        (CacheRepository.Set 100 exURL exCacheEmpty)).1 = .ok exURL := by
  have h := c9_cache_dual_key_roundtrip exCacheEmpty exURL 100 150 (by decide) (by decide)
  exact ⟨h.2.2.1, h.2.2.2⟩

/-! ## C5 — expired records are unreachable on every read path -/

/-- C5: a record whose `expiresAt` is non-zero and strictly in the past and
that is still physically present (found by the repository queries, possibly
cached under its two keys) is treated as not-found by `Cache.GetByShort`,
`Cache.GetByOriginal`, `Repository.GetByShort`, `Repository.GetByOriginal`,
and by the service read paths built from them. -/
theorem c5_expired_unreachable (w : World) (u : URL)
    (hexp : u.expiresAt ≠ 0 ∧ u.expiresAt < w.now)
    (hcs : ∀ e, getKey u.short w.cache.shortKeys = some e → e.value = u)
    (hco : ∀ e, getKey u.original w.cache.originalKeys = some e → e.value = u)
    (hfs : w.repo.urls.find? (fun v => v.short == u.short && v.deletedAt == none) = some u)
    (hfo : w.repo.urls.find?
        (fun v => v.original == u.original && v.deletedAt == none) = some u) :
    (CacheRepository.GetByShort w.now u.short w.cache).1 = .error .notFound ∧
    (CacheRepository.GetByOriginal w.now u.original w.cache).1 = .error .notFound ∧
    PostgresRepository.GetByShort w.now u.short w.repo = .error .notFound ∧
    PostgresRepository.GetByOriginal w.now u.original w.repo = .error .notFound ∧
    (URLService.GetByShort w u.short).1 = .error .notFound ∧
    (URLService.GetByOriginal w u.original).1 = .error .notFound := by
  have hb : u.isExpiredAt w.now = true := by
    simp [URL.isExpiredAt, hexp.1, hexp.2]
  have p1 : (CacheRepository.GetByShort w.now u.short w.cache).1 = .error .notFound := by
    cases hk : getKey u.short w.cache.shortKeys with
    | none => simp [CacheRepository.GetByShort, hk]
    | some e =>
      have hv := hcs e hk
      by_cases hex : e.expiry ≤ w.now <;>
        simp [CacheRepository.GetByShort, hk, hex, hv, hb]
  have p2 : (CacheRepository.GetByOriginal w.now u.original w.cache).1 = .error .notFound := by
    cases hk : getKey u.original w.cache.originalKeys with
    | none => simp [CacheRepository.GetByOriginal, hk]
    | some e =>
      have hv := hco e hk
      by_cases hex : e.expiry ≤ w.now <;>
        simp [CacheRepository.GetByOriginal, hk, hex, hv, hb]
  have p3 : PostgresRepository.GetByShort w.now u.short w.repo = .error .notFound := by
    simp [PostgresRepository.GetByShort, hfs, hb]
  have p4 : PostgresRepository.GetByOriginal w.now u.original w.repo = .error .notFound := by
    simp [PostgresRepository.GetByOriginal, hfo, hb]
  have p5 : (URLService.GetByShort w u.short).1 = .error .notFound := by
    cases hc : CacheRepository.GetByShort w.now u.short w.cache with
    | mk res c1 =>
      have p1c := p1
      rw [hc] at p1c
      simp only at p1c
      subst p1c
      simp [URLService.GetByShort, hc, p3]
  have p6 : (URLService.GetByOriginal w u.original).1 = .error .notFound := by
    cases hc : CacheRepository.GetByOriginal w.now u.original w.cache with
    | mk res c1 =>
      have p2c := p2
      rw [hc] at p2c
      simp only at p2c
      subst p2c
      simp [URLService.GetByOriginal, hc, p4]
  exact ⟨p1, p2, p3, p4, p5, p6⟩

def exURLExpired : URL := { exURL with expiresAt := 50 }

def exCacheWithExpired : CacheState :=
  CacheRepository.Set 40 exURLExpired exCacheEmpty

def exWorldExpired : World :=
  { now := 100,
    repo := { urls := [exURLExpired], clicks := [], history := [], nextId := 2,
              nextClickId := 1 },
    cache := exCacheWithExpired, cacheSetFails := false }

/-- C5 witness: the theorem applied to a concrete record that expired at
time 50, cached at time 40, read at time 100. -/
theorem c5_witness :
    (CacheRepository.GetByShort exWorldExpired.now "abc" exWorldExpired.cache).1
      = .error .notFound ∧
    (URLService.GetByShort exWorldExpired "abc").1 = .error .notFound := by
  have h := c5_expired_unreachable exWorldExpired exURLExpired (by decide)
    (by
      intro e he
      have h2 := Option.some.inj
        ((rfl : getKey exURLExpired.short exWorldExpired.cache.shortKeys
            = some ⟨exURLExpired, 140⟩).symm.trans he)
      rw [← h2])
    (by
      intro e he
      have h2 := Option.some.inj
        ((rfl : getKey exURLExpired.original exWorldExpired.cache.originalKeys
            = some ⟨exURLExpired, 140⟩).symm.trans he)
      rw [← h2])
    (by decide) (by decide)
  exact ⟨h.1, h.2.2.2.2.1⟩

/-! ## C7 — updates preserve identity and expiration carry-over -/

/-- C7: for an update of an existing record via `UpdateURL` or
`UpdateURLWithCreator`, the updated record returned on success preserves
the fetched record's `id`, `createdAt`, `clicks` and `creatorReference`;
with `ttl = 0` its `expiresAt` is carried over unchanged from the existing
record, and with `ttl > 0` it becomes `now + ttl`. -/
theorem c7_update_preserves_fields (w : World) (short title originalURL : String) (ttl : Nat)
    (creatorReference : String) (ex : URL)
    (hget : (URLService.GetByShort w short).1 = .ok ex) :
    (∀ r w', URLService.UpdateURL w short title originalURL ttl = (.ok r, w') →
      r.id = ex.id ∧ r.createdAt = ex.createdAt ∧ r.clicks = ex.clicks ∧
      r.creatorReference = ex.creatorReference ∧
      r.expiresAt = (if 0 < ttl then w.now + ttl else ex.expiresAt)) ∧
    (∀ r w', URLService.UpdateURLWithCreator w short title originalURL ttl creatorReference
        = (.ok r, w') →
      r.id = ex.id ∧ r.createdAt = ex.createdAt ∧ r.clicks = ex.clicks ∧
      r.creatorReference = ex.creatorReference ∧
      r.expiresAt = (if 0 < ttl then w.now + ttl else ex.expiresAt)) := by
  have hframe := getByShort_frame w short
  cases hg : URLService.GetByShort w short with
  | mk res w1 =>
    rw [hg] at hget hframe
    simp only at hget hframe
    subst hget
    constructor
    · intro r w' h
      rw [URLService.UpdateURL, hg] at h
      simp only at h
      split at h
      · simp at h
      · split at h
        · simp at h
        · split at h <;>
          · simp only [Prod.mk.injEq, Except.ok.injEq] at h
            obtain ⟨h1, h2⟩ := h
            subst h1
            refine ⟨rfl, rfl, rfl, rfl, ?_⟩
            simp [hframe.2.1]
    · intro r w' h
      rw [URLService.UpdateURLWithCreator, hg] at h
      simp only at h
      split at h
      · simp at h
      · split at h
        · simp at h
        · split at h <;>
          · simp only [Prod.mk.injEq, Except.ok.injEq] at h
            obtain ⟨h1, h2⟩ := h
            subst h1
            refine ⟨rfl, rfl, rfl, rfl, ?_⟩
            simp [hframe.2.1]

def exURLExp500 : URL := { exURL with expiresAt := 500 }

def exWorldExp500 : World :=
  { now := 100,
    repo := { urls := [exURLExp500], clicks := [], history := [], nextId := 2,
              nextClickId := 1 },
    cache := exCacheEmpty, cacheSetFails := false }

def exUpdated500 : URL :=
  { id := 1, original := "https://example.com", short := "abc", title := "t2",
    createdAt := 10, expiresAt := 500, clicks := 2, creatorReference := "A",
    deletedAt := none }

/-- C7 witness: an update with `ttl = 0` on a record expiring at 500 keeps
`expiresAt = 500` and all preserved fields. -/
theorem c7_witness :
    exUpdated500.id = exURLExp500.id ∧ exUpdated500.createdAt = exURLExp500.createdAt ∧
    exUpdated500.clicks = exURLExp500.clicks ∧
    exUpdated500.creatorReference = exURLExp500.creatorReference ∧
    exUpdated500.expiresAt = (if 0 < 0 then exWorldExp500.now + 0
                              else exURLExp500.expiresAt) :=
  (c7_update_preserves_fields exWorldExp500 "abc" "t2" "https://example.com" 0 "A"
    exURLExp500 rfl).1 exUpdated500
    (URLService.UpdateURL exWorldExp500 "abc" "t2" "https://example.com" 0).2 rfl

/-! ## C3 — click-recording dedup policy -/

/-- C3: with a readable record for the code (so the read path succeeds)
`RecordClick` fails with `RecentClick` exactly when some stored click
matches all four of code, ip, browser and device with a timestamp inside
the sliding one-hour window ending now; on that failure no click is
stored; otherwise exactly one click record is appended and the click
counters (the `urls` rows) are untouched. -/
theorem c3_record_click_dedup (w : World) (short ip location browser device : String)
    (u : URL) (hread : (URLService.GetByShort w short).1 = .ok u) :
    ((URLService.RecordClick w short ip location browser device).1 = .error .recentClick ↔
      ∃ c ∈ w.repo.clicks, c.urlShort = short ∧ c.ip = ip ∧ c.browser = browser ∧
        c.device = device ∧ w.now < c.timestamp + 3600) ∧
    ((URLService.RecordClick w short ip location browser device).1 = .error .recentClick →
      (URLService.RecordClick w short ip location browser device).2.repo.clicks
        = w.repo.clicks) ∧
    (∀ w', URLService.RecordClick w short ip location browser device = (.ok (), w') →
      (∃ cl, w'.repo.clicks = w.repo.clicks ++ [cl]) ∧ w'.repo.urls = w.repo.urls) := by
  have hframe := getByShort_frame w short
  by_cases hrc : PostgresRepository.HasRecentClick w.now short ip browser device w.repo = true
  · have hR := (hasRecentClick_iff w.now short ip browser device w.repo).mp hrc
    refine ⟨?_, ?_, ?_⟩
    · simp [URLService.RecordClick, hrc, hR]
    · intro _
      simp [URLService.RecordClick, hrc]
    · intro w' h
      simp [URLService.RecordClick, hrc] at h
  · have hrcF : PostgresRepository.HasRecentClick w.now short ip browser device w.repo
        = false := eq_false_of_ne_true hrc
    cases hg : URLService.GetByShort w short with
    | mk res w1 =>
      rw [hg] at hread hframe
      simp only at hread hframe
      subst hread
      refine ⟨?_, ?_, ?_⟩
      · rw [← hasRecentClick_iff w.now short ip browser device w.repo]
        simp [URLService.RecordClick, hrcF, hg]
      · simp [URLService.RecordClick, hrcF, hg]
      · intro w' h
        rw [URLService.RecordClick, hrcF] at h
        simp only [Bool.false_eq_true, if_false, hg] at h
        simp only [Prod.mk.injEq, true_and] at h
        subst h
        constructor
        · exact ⟨_, by rw [PostgresRepository.StoreClick, hframe.1]⟩
        · rw [PostgresRepository.StoreClick]
          simp [hframe.1]

def exRecentClick : Click :=
  { id := 1, urlId := 1, urlShort := "abc", ip := "1.2.3.4", location := "ID",
    browser := "Chrome", device := "Desktop", timestamp := 90 }

def exWorldClicked : World :=
  { now := 100,
    repo := { urls := [exURL], clicks := [exRecentClick], history := [], nextId := 2,
              nextClickId := 2 },
    cache := exCacheEmpty, cacheSetFails := false }

/-- C3 witness: a matching click 10 seconds old makes `RecordClick` fail
with `RecentClick`. -/
theorem c3_witness :
    (URLService.RecordClick exWorldClicked "abc" "1.2.3.4" "ID" "Chrome" "Desktop").1
      = .error .recentClick :=
  (c3_record_click_dedup exWorldClicked "abc" "1.2.3.4" "ID" "Chrome" "Desktop" exURL
      rfl).1.mpr
    ⟨exRecentClick, by decide, rfl, rfl, rfl, rfl, by decide⟩

/-! ## C6 — short-code generation -/

theorem b64char_mem (n : Nat) : b64char n ∈ b64alphabet := by
  have h : n % 64 < b64alphabet.length := Nat.mod_lt _ (by decide)
  rw [b64char, List.getD_eq_getElem _ _ h]
  exact List.getElem_mem h

/-- No character of the URL-safe alphabet is the padding character. -/
theorem b64char_ne_pad (n : Nat) : (b64char n != '=') = true := by
  have hall : ∀ c ∈ b64alphabet, (c != '=') = true := by decide
  exact hall _ (b64char_mem n)

/-- Encoding six random bytes yields eight alphabet characters; stripping
padding keeps all of them and truncation leaves exactly six. -/
theorem candidate_len6_explicit (b0 b1 b2 b3 b4 b5 : Nat) :
    (URLService.candidate [b0, b1, b2, b3, b4, b5] 6).length = 6 := by
  simp [URLService.candidate, String.length, b64urlEncode, List.filter_cons, b64char_ne_pad,
        List.length_take]

theorem candidate_len6 (bytes : List Nat) (h : bytes.length = 6) :
    (URLService.candidate bytes 6).length = 6 := by
  rcases bytes with _ | ⟨b0, bytes⟩; · simp at h
  rcases bytes with _ | ⟨b1, bytes⟩; · simp at h
  rcases bytes with _ | ⟨b2, bytes⟩; · simp at h
  rcases bytes with _ | ⟨b3, bytes⟩; · simp at h
  rcases bytes with _ | ⟨b4, bytes⟩; · simp at h
  rcases bytes with _ | ⟨b5, bytes⟩; · simp at h
  rcases bytes with _ | ⟨b6, bytes⟩
  · exact candidate_len6_explicit b0 b1 b2 b3 b4 b5
  · simp at h

/-- A successful generation run accepts the candidate of one of its
attempts. -/
theorem genLoop_ok_shape (rand : Nat → List Nat) (len : Nat) :
    ∀ (fuel : Nat) (w : World) (i : Nat) (s : String) (w' : World),
      URLService.genLoop rand len w i fuel = (.ok s, w') →
      ∃ j, i ≤ j ∧ j < i + fuel ∧ s = URLService.candidate (rand j) len := by
  intro fuel
  induction fuel with
  | zero =>
    intro w i s w' h
    rw [URLService.genLoop] at h
    simp at h
  | succ n ih =>
    intro w i s w' h
    rw [URLService.genLoop] at h
    cases hg : URLService.GetByShort w (URLService.candidate (rand i) len) with
    | mk res w1 =>
      rw [hg] at h
      simp only at h
      cases res with
      | ok v =>
        obtain ⟨j, hj1, hj2, hj3⟩ := ih w1 (i + 1) s w' h
        exact ⟨j, by omega, by omega, hj3⟩
      | error e =>
        cases e with
        | notFound =>
          simp only [Prod.mk.injEq, Except.ok.injEq] at h
          exact ⟨i, Nat.le_refl i, by omega, h.1.symm⟩
        | urlExists =>
          obtain ⟨j, hj1, hj2, hj3⟩ := ih w1 (i + 1) s w' h
          exact ⟨j, by omega, by omega, hj3⟩
        | invalidURL =>
          obtain ⟨j, hj1, hj2, hj3⟩ := ih w1 (i + 1) s w' h
          exact ⟨j, by omega, by omega, hj3⟩
        | recentClick =>
          obtain ⟨j, hj1, hj2, hj3⟩ := ih w1 (i + 1) s w' h
          exact ⟨j, by omega, by omega, hj3⟩
        | unauthorized =>
          obtain ⟨j, hj1, hj2, hj3⟩ := ih w1 (i + 1) s w' h
          exact ⟨j, by omega, by omega, hj3⟩
        | uniqueViolation =>
          obtain ⟨j, hj1, hj2, hj3⟩ := ih w1 (i + 1) s w' h
          exact ⟨j, by omega, by omega, hj3⟩
        | cacheFailure =>
          obtain ⟨j, hj1, hj2, hj3⟩ := ih w1 (i + 1) s w' h
          exact ⟨j, by omega, by omega, hj3⟩

/-- When the repository holds every candidate the loop will probe, no
attempt sees a clean not-found and the loop exhausts into `ErrURLExists`. -/
theorem genLoop_exhaust (rand : Nat → List Nat) (len : Nat) :
    ∀ (fuel : Nat) (w : World) (i : Nat),
      (∀ j, i ≤ j → j < i + fuel →
        ∃ u, PostgresRepository.GetByShort w.now (URLService.candidate (rand j) len) w.repo
          = .ok u) →
      (URLService.genLoop rand len w i fuel).1 = .error .urlExists := by
  intro fuel
  induction fuel with
  | zero =>
    intro w i _
    rw [URLService.genLoop]
  | succ n ih =>
    intro w i h
    rw [URLService.genLoop]
    have hframe := getByShort_frame w (URLService.candidate (rand i) len)
    obtain ⟨u, hu⟩ := h i (Nat.le_refl i) (by omega)
    have hnn := getByShort_not_notFound w (URLService.candidate (rand i) len) u hu
    cases hg : URLService.GetByShort w (URLService.candidate (rand i) len) with
    | mk res w1 =>
      rw [hg] at hframe hnn
      simp only at hframe hnn
      have hrec : (URLService.genLoop rand len w1 (i + 1) n).1 = .error .urlExists := by
        apply ih
        intro j hj1 hj2
        rw [hframe.2.1, hframe.1]
        exact h j (by omega) (by omega)
      cases res with
      | ok v => simpa using hrec
      | error e =>
        cases e with
        | notFound => exact absurd rfl hnn
        | urlExists => simpa using hrec
        | invalidURL => simpa using hrec
        | recentClick => simpa using hrec
        | unauthorized => simpa using hrec
        | uniqueViolation => simpa using hrec
        | cacheFailure => simpa using hrec

/-- A successful repository insert stores the given record with the
store-assigned identity. -/
theorem create_result_eq (u : URL) (r : RepoState) (v : URL) (r' : RepoState)
    (h : PostgresRepository.Create u r = .ok (v, r')) :
    v = { u with id := r.nextId } := by
  rw [PostgresRepository.Create] at h
  split at h
  · simp at h
  · split at h
    · simp at h
    · simp only [Except.ok.injEq, Prod.mk.injEq] at h
      exact h.1.symm

/-- C6: when `CreateShortURL` is invoked without a custom code and
succeeds, the generated short code has exactly 6 characters and equals the
base64-url encoding of one of at most five draws of random bytes, padding
stripped and truncated to length 6; and when the read path finds every one
of the five candidates taken, the whole creation fails with
`AlreadyExists` (`ErrURLExists`). -/
theorem c6_generation (w : World) (originalURL title creatorReference : String) (ttl : Nat)
    (rand : Nat → List Nat) (hlen : ∀ i, i < 5 → (rand i).length = 6) :
    (∀ r w', URLService.CreateShortURL w originalURL "" title ttl creatorReference rand
        = (.ok r, w') →
      r.short.length = 6 ∧ ∃ i, i < 5 ∧ r.short = URLService.candidate (rand i) 6) ∧
    (parseRequestURIOk originalURL = true →
      (∀ i, i < 5 →
        ∃ u, PostgresRepository.GetByShort w.now (URLService.candidate (rand i) 6) w.repo
          = .ok u) →
      (URLService.CreateShortURL w originalURL "" title ttl creatorReference rand).1
        = .error .urlExists) := by
  constructor
  · intro r w' h
    rw [URLService.CreateShortURL] at h
    by_cases hv : parseRequestURIOk originalURL
    · simp only [hv, Bool.not_true, Bool.false_eq_true, if_false, beq_self_eq_true,
        if_true, URLService.generateShortURL] at h
      split at h
      · simp at h
      · rename_i short1 w1 heq
        split at h
        · simp at h
        · rename_i created repo1 heq2
          obtain ⟨j, _, hj5, hjs⟩ := genLoop_ok_shape rand 6 5 w 0 short1 w1 heq
          have hcreq := create_result_eq _ _ _ _ heq2
          split at h
          · simp at h
          · simp only [Prod.mk.injEq, Except.ok.injEq] at h
            obtain ⟨h1, _⟩ := h
            subst h1
            subst hcreq
            refine ⟨?_, j, by omega, ?_⟩
            · simpa [NewURL, hjs] using candidate_len6 (rand j) (hlen j (by omega))
            · simp [NewURL, hjs]
    · rw [eq_false_of_ne_true hv] at h
      simp at h
  · intro hv htaken
    rw [URLService.CreateShortURL]
    have hgen := genLoop_exhaust rand 6 5 w 0 (by
      intro j hj1 hj2
      exact htaken j (by omega))
    cases hge : URLService.genLoop rand 6 w 0 5 with
    | mk gres w1 =>
      rw [hge] at hgen
      simp only at hgen
      subst hgen
      simp [hv, URLService.generateShortURL, hge]

def exURLTaken : URL :=
  { id := 1, original := "https://a.example", short := "AAAAAA", title := "t",
    createdAt := 10, expiresAt := 0, clicks := 0, creatorReference := "A",
    deletedAt := none }

def exWorldTaken : World :=
  { now := 100,
    repo := { urls := [exURLTaken], clicks := [], history := [], nextId := 2,
              nextClickId := 1 },
    cache := exCacheEmpty, cacheSetFails := false }

/-- C6 witness: with the zero random source every candidate is `"AAAAAA"`;
a store already holding that live short makes all five attempts fail and
creation ends in `ErrURLExists`. -/
theorem c6_witness :
    (URLService.CreateShortURL exWorldTaken "https://example.org" "" "t" 0 "me"
        exRandZero).1 = .error .urlExists :=
  (c6_generation exWorldTaken "https://example.org" "t" "me" 0 exRandZero
      (fun _ _ => rfl)).2 rfl (fun _ _ => ⟨exURLTaken, rfl⟩)

/-! ## C10 — analytics aggregation consistency -/

theorem sum_dedup_count (m : List String) :
    (m.dedup.map (fun k => m.count k)).sum = m.length := by
  have htf : m.dedup.toFinset = m.toFinset :=
    List.toFinset.ext (fun x => List.mem_dedup)
  have h1 := List.sum_toFinset (fun k => m.count k) (List.nodup_dedup m)
  rw [htf] at h1
  rw [← h1]
  exact List.sum_toFinset_count_eq_length m

/-- Each GROUP BY aggregation partitions the filtered clicks, so its
counts sum to the filtered list's length. -/
theorem sum_groupCounts (f : Click → String) (l : List Click) :
    ((groupCounts f l).map (fun p => p.2)).sum = l.length := by
  rw [groupCounts, List.map_map]
  have hcnt : (fun k => (l.filter (fun c => f c == k)).length)
      = fun k => (l.map f).count k := by
    funext k
    rw [List.count_eq_countP, List.countP_map, ← List.countP_eq_length_filter]
    rfl
  calc ((l.map f).dedup.map
          ((fun p => p.2) ∘ fun k => (k, (l.filter (fun c => f c == k)).length))).sum
      = ((l.map f).dedup.map (fun k => (l.map f).count k)).sum := by rw [show ((fun p => p.2) ∘ fun k => (k, (l.filter (fun c => f c == k)).length)) = fun k => (l.filter (fun c => f c == k)).length from rfl, hcnt]
    _ = (l.map f).length := sum_dedup_count (l.map f)
    _ = l.length := List.length_map l f

/-- C10: `GetClickAnalytics` returns exactly the four aggregates
`total_clicks`, `browsers`, `devices`, `locations` (the four fields of
`Analytics`); the total equals the number of click records stored for the
code, which also equals the sum of the per-browser, per-device and
per-location counts. -/
theorem c10_analytics_consistency (short : String) (r : RepoState) :
    (PostgresRepository.GetClickAnalytics short r).totalClicks
      = (r.clicks.filter (fun c => c.urlShort == short)).length ∧
    ((PostgresRepository.GetClickAnalytics short r).browsers.map (fun p => p.2)).sum
      = (PostgresRepository.GetClickAnalytics short r).totalClicks ∧
    ((PostgresRepository.GetClickAnalytics short r).devices.map (fun p => p.2)).sum
      = (PostgresRepository.GetClickAnalytics short r).totalClicks ∧
    ((PostgresRepository.GetClickAnalytics short r).locations.map (fun p => p.2)).sum
      = (PostgresRepository.GetClickAnalytics short r).totalClicks := by
  refine ⟨rfl, ?_, ?_, ?_⟩ <;>
    exact sum_groupCounts _ _

end UrlShortener
